import Mathlib

/-!
Verification of the duplicate/near-duplicate topic-detection core of the
auto_post repository (src/embeddings.py and src/services.py), as a shallow
embedding in Lean 4.

Modelling conventions:
* Python strings are Lean `String` (a wrapper around `List Char`); the
  character-level work is done on `List Char`.
* Python's regex-based text normalization (`normalize_text` in embeddings.py,
  `normalize_title` in services.py, identical bodies) is translated step by
  step: the anchored regex substitutions become explicit prefix-stripping
  functions and the whitespace-collapse substitution becomes a run-collapsing
  recursion.  `\s` is modelled by its ASCII cases (space, tab, newline,
  carriage return, vertical tab, form feed), `str.lower` by the ASCII
  lowercase map, matching the characters the repository actually handles.
* Embedding vectors are `List ℚ`.  The IEEE-754 value of
  `np.dot(a, b) / (np.linalg.norm(a) * np.linalg.norm(b))` is not rational,
  so the scalar produced by a successful cosine-similarity call is abstracted
  as a parameter `f : Vec → Vec → ℚ`; the error structure of the call
  (numpy raises ValueError from `np.dot` when the operand lengths differ,
  and nothing in the repository catches it) is modelled concretely.
* `get_embedding` is abstracted as `provider : String → Option Vec`
  (None covers a missing API key and any API failure, both of which the
  source turns into `return None`).  Python's truthiness test
  `if not new_embedding` also treats an empty list as a failure, which the
  model reproduces.
* The embeddings JSON file is modelled by its parsed state: absent, invalid
  (unreadable bytes or a JSON parse error, i.e. the `except` path), or a
  parsed JSON value.  `json.dump`/`json.load` round-trip the stored mapping,
  so a store held in memory stands for the persisted file on the happy path.
-/

/-- ASCII cases of Python's regex class `\s`: space (32), tab (9), newline
(10), carriage return (13), vertical tab (11), form feed (12), given by code
point. -/
def pyIsSpace (c : Char) : Bool :=
  c.toNat == 32 || c.toNat == 9 || c.toNat == 10 || c.toNat == 13 ||
    c.toNat == 11 || c.toNat == 12

/-- ASCII case of Python's `str.lower`, applied characterwise. -/
def pyToLower (c : Char) : Char :=
  if 65 ≤ c.toNat ∧ c.toNat ≤ 90 then Char.ofNat (c.toNat + 32) else c

/-- Step (1) of the normalizer: the substitution `re.sub(r'^#+\s+', '', text)`.
The anchored pattern matches at position 0 only, consuming the maximal leading
run of `#` followed by a maximal nonempty whitespace run. -/
def stripHeading (l : List Char) : List Char :=
  match l.takeWhile (fun c => c == '#'), l.dropWhile (fun c => c == '#') with
  | _ :: _, c :: cs =>
      if pyIsSpace c then (c :: cs).dropWhile pyIsSpace else l
  | _, _ => l

/-- Step (2) of the normalizer: the substitution
`re.sub(r'^title:\s*', '', text, flags=re.IGNORECASE)`: a case-insensitive
literal `title:` at position 0, then a maximal (possibly empty) whitespace
run, are removed. -/
def stripTitleMarker (l : List Char) : List Char :=
  match l with
  | c1 :: c2 :: c3 :: c4 :: c5 :: c6 :: rest =>
      if pyToLower c1 == 't' && pyToLower c2 == 'i' && pyToLower c3 == 't' &&
         pyToLower c4 == 'l' && pyToLower c5 == 'e' && c6 == ':' then
        rest.dropWhile pyIsSpace
      else l
  | _ => l

/-- Step (3a) of the normalizer: the substitution `re.sub(r'\s+', ' ', text)`,
replacing every maximal whitespace run by a single space. -/
def collapseWs : List Char → List Char
  | [] => []
  | [c] => if pyIsSpace c then [' '] else [c]
  | c :: c' :: cs =>
      if pyIsSpace c then
        if pyIsSpace c' then collapseWs (c' :: cs)
        else ' ' :: collapseWs (c' :: cs)
      else c :: collapseWs (c' :: cs)

/-- Step (3b) of the normalizer: Python's `str.strip`, removing leading and
trailing whitespace. -/
def pyStrip (l : List Char) : List Char :=
  ((l.dropWhile pyIsSpace).reverse.dropWhile pyIsSpace).reverse

/-- Step (4) of the normalizer: Python's `str.lower`. -/
def pyLower (l : List Char) : List Char :=
  l.map pyToLower

/-- The function `normalize_text` of src/embeddings.py (lines 15-29): strip a
leading markdown heading marker, strip a leading case-insensitive `title:`
marker, collapse whitespace runs, trim, and lowercase.  The `isinstance`
coercion branch is outside the `String`-typed model. -/
def normalize_text (s : String) : String :=
  ⟨pyLower (pyStrip (collapseWs (stripTitleMarker (stripHeading s.data))))⟩

/-- The function `normalize_title` of src/services.py (lines 632-646); its
body is character-for-character the same pipeline as `normalize_text`. -/
def normalize_title : String → String :=
  normalize_text

example : normalize_text "# Docker Guide" = "docker guide" := by decide
example : normalize_text "Title: docker guide" = "docker guide" := by decide
example : normalize_text "docker   guide" = "docker guide" := by decide
example : normalize_text "title: title: abc" = "title: abc" := by decide
example : normalize_text "  # # Hello  World " = "# # hello world" := by decide
example : normalize_text "# # Hello" = "# hello" := by decide

/-- An embedding vector (Python `List[float]`, here with the float values
idealized as rationals). -/
abbrev Vec : Type := List ℚ

/-- The exception kinds the modelled code can actually raise: numpy's
`np.dot` raises ValueError when 1-D operands of different lengths are
multiplied.  No other exception class (in particular no DimensionMismatch)
occurs in src/embeddings.py. -/
inductive PyErr : Type
  | valueError
deriving DecidableEq

deriving instance DecidableEq for Except

/-- SIMILARITY_THRESHOLD = 0.92 (src/embeddings.py line 12). -/
def simThreshold : ℚ := 92 / 100

/-- Sum of pointwise products of two equal-length lists (the value of
`np.dot` on 1-D arrays). -/
def dotL (a b : List ℚ) : ℚ :=
  (List.zipWith (fun x y => x * y) a b).sum

/-- The call `np.dot(a, b)` on 1-D arrays: the pointwise-product sum when the
lengths agree, a raised ValueError otherwise. -/
def npDot (a b : List ℚ) : Except PyErr ℚ :=
  if a.length = b.length then .ok (dotL a b) else .error .valueError

/-- Squared Euclidean magnitude of a vector, `np.linalg.norm(a) ** 2`. -/
def normSq (a : List ℚ) : ℚ :=
  dotL a a

/-- The function `cosine_similarity` of src/embeddings.py (lines 77-79):
`np.dot(a, b) / (np.linalg.norm(a) * np.linalg.norm(b))`, with no dimension
or zero-magnitude checks of its own.  `np.dot` raises ValueError on a length
mismatch; on equal lengths the floating-point quotient is produced, whose
value the model abstracts as `f a b` (the square root in the norms is not
rational). -/
def cosine_similarity (f : Vec → Vec → ℚ) (a b : Vec) : Except PyErr ℚ :=
  match npDot a b with
  | .error e => .error e
  | .ok _ => .ok (f a b)

/-- The persisted embedding mapping, as an insertion-ordered association
list (a Python dict iterates its keys in insertion order, and
`embeddings[text] = embedding` keeps the position of an existing key). -/
abbrev Store : Type := List (String × Vec)

/-- Result of `is_similar_to_existing`, together with whether the run reached
the `get_embedding` call and the `load_embeddings` call (the function itself
never writes any state). -/
structure SimCheck where
  similar : Bool
  topic : Option String
  providerCalled : Bool
  storeLoaded : Bool
deriving DecidableEq

/-- The scan loop of `is_similar_to_existing` (src/embeddings.py lines
107-124) over the stored (topic, embedding) pairs, carrying the running
maximum (initialized to 0) and the current best topic: an exact normalized
match returns early; otherwise the cosine similarity is computed (a raised
ValueError propagates) and the maximum is updated on a strict increase.
After the loop the flag `max_similarity > SIMILARITY_THRESHOLD` is returned
(line 134). -/
def scanTopics (f : Vec → Vec → ℚ) (q : Vec) (nt : String) :
    Store → ℚ → Option String → Except PyErr (Bool × Option String)
  | [], maxSim, most => .ok (decide (maxSim > simThreshold), most)
  | (topic, emb) :: rest, maxSim, most =>
      if normalize_text topic = nt then .ok (true, some topic)
      else
        match cosine_similarity f q emb with
        | .error e => .error e
        | .ok s =>
            if s > maxSim then scanTopics f q nt rest s (some topic)
            else scanTopics f q nt rest maxSim most

/-- The function `is_similar_to_existing` of src/embeddings.py (lines
81-141).  `f` abstracts the float value of a successful cosine-similarity
call and `provider` abstracts `get_embedding` for the calling user (None for
a missing key or API failure; Python's `if not new_embedding` also treats an
empty vector as a failure).  `store` is the parsed content of the embeddings
file read by `load_embeddings`. -/
def is_similar_to_existing (f : Vec → Vec → ℚ) (provider : String → Option Vec)
    (store : Store) (text : String) : Except PyErr SimCheck :=
  if text = "" ∨ text.length < 10 then .ok ⟨false, none, false, false⟩
  else
    match provider (normalize_text text) with
    | none => .ok ⟨false, none, true, false⟩
    | some [] => .ok ⟨false, none, true, false⟩
    | some emb =>
        if store = [] then .ok ⟨false, none, true, true⟩
        else
          match scanTopics f emb (normalize_text text) store 0 none with
          | .error e => .error e
          | .ok (b, most) => .ok ⟨b, most, true, true⟩

/-- The dict update `embeddings[text] = embedding`: an existing key keeps its
position and gets the new value, a new key is appended. -/
def upsert (store : Store) (k : String) (v : Vec) : Store :=
  if store.any (fun p => p.1 == k) then
    store.map (fun p => if p.1 == k then (k, v) else p)
  else store ++ [(k, v)]

/-- The function `add_embedding` of src/embeddings.py (lines 143-151): embed
the raw text (`get_embedding(text, ...)`, None and the empty vector are
failures), then load-update-save the store.  The save is modelled as
succeeding; the returned store is the persisted state. -/
def add_embedding (provider : String → Option Vec) (store : Store)
    (text : String) : Bool × Store :=
  match provider text with
  | none => (false, store)
  | some [] => (false, store)
  | some emb => (true, upsert store text emb)

/-- The function `is_exact_title_exists` of src/services.py (lines 648-673):
normalize the candidate, refuse candidates whose normalized form is shorter
than 5 characters, then return the first of the user's post titles whose
normalized form equals the candidate's.  `dbTitles` is the user's
`user_posts.title` column in row order. -/
def is_exact_title_exists (dbTitles : List String) (title : String) :
    Bool × Option String :=
  let nt := normalize_title title
  if nt = "" ∨ nt.length < 5 then (false, none)
  else
    match dbTitles.find? (fun t => normalize_title t == nt) with
    | some t => (true, some t)
    | none => (false, none)

/-- The function `is_similar_post_exists` of src/services.py (lines
866-882), the Duplicate Guard: exact DB-title check, then the semantic
check, and on a double miss the registration `add_embedding(title, user_id)`
with the raw (unnormalized) title; the guard ignores `add_embedding`'s
return value and returns False.  The returned store is the persisted
embedding store after the call.  (The `content`, `threshold` and
`check_content` parameters of the source are never used by its body.) -/
def is_similar_post_exists (f : Vec → Vec → ℚ) (provider : String → Option Vec)
    (dbTitles : List String) (store : Store) (title : String) :
    Except PyErr (Bool × Store) :=
  if (is_exact_title_exists dbTitles title).1 then .ok (true, store)
  else
    match is_similar_to_existing f provider store title with
    | .error e => .error e
    | .ok r =>
        if r.similar then .ok (true, store)
        else .ok (false, (add_embedding provider store title).2)

/-- A parsed JSON value (what `json.load` can return). -/
inductive JsonVal : Type
  | obj (entries : List (String × JsonVal))
  | arr (elems : List JsonVal)
  | str (s : String)
  | num (q : ℚ)
  | boolVal (b : Bool)
  | null

/-- The observable states of the embeddings persistence file:
absent (`Path(...).exists()` false), invalid (opening, reading or
`json.load` raises — unreadable bytes or malformed JSON), or a
successfully parsed JSON value. -/
inductive FileState : Type
  | absent
  | invalid
  | content (v : JsonVal)

/-- The function `load_embeddings` of src/embeddings.py (lines 56-65): an
absent file yields an empty dict, any raised exception is caught and yields
an empty dict, and otherwise the parsed JSON value is returned as-is —
whatever shape it has. -/
def load_embeddings : FileState → JsonVal
  | .absent => .obj []
  | .invalid => .obj []
  | .content v => v

/-- The function `cleanup_embeddings` of src/embeddings.py (lines 179-206),
success path: fetch the calling user's current post titles, then delete
every store key that is not among them (iterating over `list(...keys())`
and deleting, which keeps exactly the entries whose key is a current
title of that user); the pruned dict is saved when anything was removed,
and the unchanged file already equals the unpruned dict otherwise.  The
result is the persisted mapping after the call. -/
def cleanup_embeddings (currentTitles : List String) (store : Store) : Store :=
  store.filter (fun p => currentTitles.contains p.1)

/-- One per-user entry of the title cache `_title_cache` of src/services.py:
the parallel lists of original and normalized titles (the
`last_updated` timestamp carries no information the claims touch). -/
structure TitleCache where
  original : List String
  normalized : List String
deriving DecidableEq

/-- The rebuild branch of `get_all_user_titles` (src/services.py lines
887-907): all of the user's post titles in row order (NULLs already coerced
to empty strings), paired with their normalized forms. -/
def rebuild_cache (titles : List String) : TitleCache :=
  ⟨titles, titles.map normalize_title⟩

/-- The append performed by `generate_unique_topic_and_post` right after a
new title is accepted (src/services.py lines 848-852): push the title and
its normalized form onto the two parallel lists. -/
def append_title (c : TitleCache) (title : String) : TitleCache :=
  ⟨c.original ++ [title], c.normalized ++ [normalize_title title]⟩

/-- The title-cache states the repository can actually produce for a user:
a wholesale rebuild from the post store, followed by any number of
single-title appends. -/
inductive CacheReach : TitleCache → Prop
  | rebuild (titles : List String) : CacheReach (rebuild_cache titles)
  | append (c : TitleCache) (t : String) :
      CacheReach c → CacheReach (append_title c t)

/-- Running maximum over the similarity scores of a store against a fixed
query embedding, starting from a floor value `m`. -/
def foldMaxFrom (f : Vec → Vec → ℚ) (q : Vec) : Store → ℚ → ℚ
  | [], m => m
  | p :: rest, m => foldMaxFrom f q rest (max m (f q p.2))

/-- The maximum cosine-similarity score of a query embedding against a
non-empty store (0 for an empty store, which the scan never reaches). -/
def maxScore (f : Vec → Vec → ℚ) (q : Vec) : Store → ℚ
  | [] => 0
  | p :: rest => foldMaxFrom f q rest (f q p.2)

/-- The state transformation the scan loop applies when no exact normalized
match occurs: fold the (running maximum, best topic) pair over the store,
updating both on a strict increase of the score. -/
def foldPair (f : Vec → Vec → ℚ) (q : Vec) :
    Store → ℚ × Option String → ℚ × Option String
  | [], st => st
  | p :: rest, st =>
      foldPair f q rest (if f q p.2 > st.1 then (f q p.2, some p.1) else st)

theorem cosine_ok_of_length {f : Vec → Vec → ℚ} {a b : Vec}
    (h : a.length = b.length) : cosine_similarity f a b = .ok (f a b) := by
  simp [cosine_similarity, npDot, h]

theorem cosine_err_of_length {f : Vec → Vec → ℚ} {a b : Vec}
    (h : a.length ≠ b.length) :
    cosine_similarity f a b = .error .valueError := by
  simp [cosine_similarity, npDot, h]

theorem length_of_cosine_ok {f : Vec → Vec → ℚ} {a b : Vec} {s : ℚ}
    (h : cosine_similarity f a b = .ok s) : a.length = b.length := by
  by_cases hl : a.length = b.length
  · exact hl
  · rw [cosine_err_of_length hl] at h
    exact absurd h (by simp)

theorem scanTopics_no_match {f : Vec → Vec → ℚ} {q : Vec} {nt : String} :
    ∀ (l : Store) (m : ℚ) (most : Option String),
      (∀ p ∈ l, normalize_text p.1 ≠ nt) →
      (∀ p ∈ l, q.length = p.2.length) →
      scanTopics f q nt l m most =
        .ok (decide ((foldPair f q l (m, most)).1 > simThreshold),
             (foldPair f q l (m, most)).2) := by
  intro l
  induction l with
  | nil => intro m most _ _; simp [scanTopics, foldPair]
  | cons p rest ih =>
      intro m most hnm hlen
      have hp : normalize_text p.1 ≠ nt := hnm p (by simp)
      have hq : q.length = p.2.length := hlen p (by simp)
      have hrest1 : ∀ x ∈ rest, normalize_text x.1 ≠ nt :=
        fun x hx => hnm x (by simp [hx])
      have hrest2 : ∀ x ∈ rest, q.length = x.2.length :=
        fun x hx => hlen x (by simp [hx])
      obtain ⟨t, e⟩ := p
      simp only [scanTopics, if_neg hp, cosine_ok_of_length hq]
      by_cases hgt : f q e > m
      · simp only [if_pos hgt, foldPair]
        rw [ih _ _ hrest1 hrest2]
      · simp only [if_neg hgt, foldPair]
        rw [ih _ _ hrest1 hrest2]

theorem foldPair_fst {f : Vec → Vec → ℚ} {q : Vec} :
    ∀ (l : Store) (m : ℚ) (most : Option String),
      (foldPair f q l (m, most)).1 = foldMaxFrom f q l m := by
  intro l
  induction l with
  | nil => intro m most; simp [foldPair, foldMaxFrom]
  | cons p rest ih =>
      intro m most
      simp only [foldPair, foldMaxFrom]
      by_cases hgt : f q p.2 > m
      · rw [if_pos hgt, ih, max_eq_right (le_of_lt hgt)]
      · rw [if_neg hgt, ih, max_eq_left (le_of_not_lt hgt)]

theorem foldMaxFrom_max {f : Vec → Vec → ℚ} {q : Vec} :
    ∀ (l : Store) (a b : ℚ),
      foldMaxFrom f q l (max a b) = max a (foldMaxFrom f q l b) := by
  intro l
  induction l with
  | nil => intro a b; simp [foldMaxFrom]
  | cons p rest ih =>
      intro a b
      simp only [foldMaxFrom, max_assoc]
      exact ih _ _

theorem foldMaxFrom_gt_iff {f : Vec → Vec → ℚ} {q : Vec} {t : ℚ} :
    ∀ (l : Store) (m : ℚ),
      (foldMaxFrom f q l m > t ↔ m > t ∨ ∃ p ∈ l, f q p.2 > t) := by
  intro l
  induction l with
  | nil => intro m; simp [foldMaxFrom]
  | cons p rest ih =>
      intro m
      simp only [foldMaxFrom]
      rw [ih]
      constructor
      · rintro (hm | hx)
        · rcases lt_max_iff.mp hm with h | h
          · exact Or.inl h
          · exact Or.inr ⟨p, by simp, h⟩
        · obtain ⟨x, hx1, hx2⟩ := hx
          exact Or.inr ⟨x, by simp [hx1], hx2⟩
      · rintro (hm | ⟨x, hx1, hx2⟩)
        · exact Or.inl (lt_max_iff.mpr (Or.inl hm))
        · rcases List.mem_cons.mp hx1 with rfl | hx1
          · exact Or.inl (lt_max_iff.mpr (Or.inr hx2))
          · exact Or.inr ⟨x, hx1, hx2⟩

theorem foldMaxFrom_zero_eq {f : Vec → Vec → ℚ} {q : Vec} :
    ∀ (p : String × Vec) (rest : Store),
      foldMaxFrom f q (p :: rest) 0 = max 0 (maxScore f q (p :: rest)) := by
  intro p rest
  simp only [foldMaxFrom, maxScore]
  exact foldMaxFrom_max rest 0 (f q p.2)

theorem foldPair_snd_spec {f : Vec → Vec → ℚ} {q : Vec} :
    ∀ (l : Store) (m : ℚ) (most : Option String),
      ((foldPair f q l (m, most)).2 = most ∧ (foldPair f q l (m, most)).1 = m ∧
        ∀ p ∈ l, f q p.2 ≤ m) ∨
      (∃ p ∈ l, (foldPair f q l (m, most)).2 = some p.1 ∧
        f q p.2 = (foldPair f q l (m, most)).1 ∧ m < (foldPair f q l (m, most)).1) := by
  intro l
  induction l with
  | nil => intro m most; left; simp [foldPair]
  | cons p rest ih =>
      intro m most
      by_cases hgt : f q p.2 > m
      · right
        simp only [foldPair, if_pos hgt]
        rcases ih (f q p.2) (some p.1) with ⟨h1, h2, h3⟩ | ⟨x, hx1, hx2, hx3, hx4⟩
        · exact ⟨p, by simp, h1, by rw [h2], by rw [h2]; exact hgt⟩
        · exact ⟨x, by simp [hx1], hx2, hx3, lt_trans hgt hx4⟩
      · simp only [foldPair, if_neg hgt]
        rcases ih m most with ⟨h1, h2, h3⟩ | ⟨x, hx1, hx2, hx3, hx4⟩
        · left
          refine ⟨h1, h2, ?_⟩
          intro x hx
          rcases List.mem_cons.mp hx with rfl | hx
          · exact le_of_not_lt hgt
          · exact h3 x hx
        · right
          exact ⟨x, by simp [hx1], hx2, hx3, hx4⟩

theorem scanTopics_match {f : Vec → Vec → ℚ} {q : Vec} {nt : String}
    {t : String} {e : Vec} {rest : Store} (ht : normalize_text t = nt) :
    ∀ (pre : Store) (m : ℚ) (most : Option String),
      (∀ p ∈ pre, normalize_text p.1 ≠ nt) →
      (∀ p ∈ pre, q.length = p.2.length) →
      scanTopics f q nt (pre ++ (t, e) :: rest) m most = .ok (true, some t) := by
  intro pre
  induction pre with
  | nil => intro m most _ _; simp [scanTopics, ht]
  | cons p pre ih =>
      intro m most hnm hlen
      have hp : normalize_text p.1 ≠ nt := hnm p (by simp)
      have hq : q.length = p.2.length := hlen p (by simp)
      obtain ⟨t0, e0⟩ := p
      simp only [List.cons_append, scanTopics, if_neg hp, cosine_ok_of_length hq]
      by_cases hgt : f q e0 > m
      · rw [if_pos hgt]
        exact ih _ _ (fun x hx => hnm x (by simp [hx]))
          (fun x hx => hlen x (by simp [hx]))
      · rw [if_neg hgt]
        exact ih _ _ (fun x hx => hnm x (by simp [hx]))
          (fun x hx => hlen x (by simp [hx]))

theorem scanTopics_ok_false {f : Vec → Vec → ℚ} {q : Vec} {nt : String} :
    ∀ (l : Store) (m : ℚ) (most mo : Option String),
      scanTopics f q nt l m most = .ok (false, mo) →
      ∀ p ∈ l, normalize_text p.1 ≠ nt ∧ q.length = p.2.length := by
  intro l
  induction l with
  | nil => intro m most mo _; intro p hp; exact absurd hp (by simp)
  | cons p rest ih =>
      intro m most mo hrun x hx
      obtain ⟨t0, e0⟩ := p
      by_cases hm : normalize_text t0 = nt
      · rw [scanTopics, if_pos hm] at hrun
        exact absurd hrun (by simp)
      · rw [scanTopics, if_neg hm] at hrun
        by_cases hl : q.length = e0.length
        · simp only [cosine_ok_of_length hl] at hrun
          rcases List.mem_cons.mp hx with rfl | hx
          · exact ⟨hm, hl⟩
          · by_cases hgt : f q e0 > m
            · rw [if_pos hgt] at hrun
              exact ih _ _ _ hrun x hx
            · rw [if_neg hgt] at hrun
              exact ih _ _ _ hrun x hx
        · simp only [cosine_err_of_length hl] at hrun
          exact absurd hrun (by simp)

theorem length_ge_not_short {text : String} (hlen : 10 ≤ text.length) :
    ¬(text = "" ∨ text.length < 10) := by
  rintro (rfl | h)
  · exact absurd hlen (by decide)
  · omega

theorem is_similar_run {f : Vec → Vec → ℚ} {provider : String → Option Vec}
    {store : Store} {text : String} {emb : Vec}
    (hlen : 10 ≤ text.length)
    (hprov : provider (normalize_text text) = some emb) (hemb : emb ≠ [])
    (hne : store ≠ [])
    (hnm : ∀ p ∈ store, normalize_text p.1 ≠ normalize_text text)
    (hdim : ∀ p ∈ store, emb.length = p.2.length) :
    is_similar_to_existing f provider store text =
      .ok ⟨decide ((foldPair f emb store (0, none)).1 > simThreshold),
           (foldPair f emb store (0, none)).2, true, true⟩ := by
  obtain ⟨⟩ | ⟨a, tl⟩ := emb
  · exact absurd rfl hemb
  · rw [is_similar_to_existing, if_neg (length_ge_not_short hlen), hprov]
    simp only [if_neg hne]
    rw [scanTopics_no_match store 0 none hnm hdim]

theorem foldPair_fst_eq_max {f : Vec → Vec → ℚ} {q : Vec} {p : String × Vec}
    {rest : Store} :
    (foldPair f q (p :: rest) (0, none)).1 = max 0 (maxScore f q (p :: rest)) := by
  rw [foldPair_fst, foldMaxFrom_zero_eq]




/-- Claim C4: for every text shorter than 10 characters (including the empty
text), is_similar_to_existing returns (false, None) before calling the
embedding provider or loading the store, and the function performs no write
at all (it is read-only in the source). -/
theorem c4_short_text_floor (f : Vec → Vec → ℚ) (provider : String → Option Vec)
    (store : Store) (text : String) (hshort : text.length < 10) :
    is_similar_to_existing f provider store text =
      .ok ⟨false, none, false, false⟩ := by
  rw [is_similar_to_existing, if_pos (Or.inr hshort)]

/-- Witness for C4 at the spec's own example, the 5-character text short. -/
theorem c4_short_text_floor_witness :
    is_similar_to_existing (fun _ _ => 0) (fun _ => some [1]) [("stored topic", [1])]
      "short" = .ok ⟨false, none, false, false⟩ :=
  c4_short_text_floor (fun _ _ => 0) (fun _ => some [1]) [("stored topic", [1])]
    "short" (by decide)

/-- Counterexample to claim C2: the source obtains the query embedding
(line 95 of src/embeddings.py) before the loop that performs the
normalized-form comparison (line 115), so with a failing provider the
function returns (false, None) — after one provider call — even though a
stored topic's normalized form equals the query's normalized form. -/
theorem c2_counterexample :
    normalize_text "Title: example   topic here" = normalize_text "Example Topic Here" ∧
    is_similar_to_existing (fun _ _ => 0) (fun _ => none)
      [("Title: example   topic here", [1])] "Example Topic Here" =
      .ok ⟨false, none, true, false⟩ := by
  constructor
  · decide
  · rfl

theorem is_similar_exact_match {f : Vec → Vec → ℚ}
    {provider : String → Option Vec} {text t : String} {e emb : Vec}
    {pre rest : Store}
    (hlen : 10 ≤ text.length)
    (hprov : provider (normalize_text text) = some emb) (hemb : emb ≠ [])
    (hpre1 : ∀ p ∈ pre, normalize_text p.1 ≠ normalize_text text)
    (hpre2 : ∀ p ∈ pre, emb.length = p.2.length)
    (ht : normalize_text t = normalize_text text) :
    is_similar_to_existing f provider (pre ++ (t, e) :: rest) text =
      .ok ⟨true, some t, true, true⟩ := by
  obtain ⟨⟩ | ⟨a, tl⟩ := emb
  · exact absurd rfl hemb
  · rw [is_similar_to_existing, if_neg (length_ge_not_short hlen), hprov]
    have hne : pre ++ (t, e) :: rest ≠ [] := by simp
    simp only [if_neg hne]
    rw [scanTopics_match ht pre 0 none hpre1 hpre2]

/-- Claim C2 as amended: the exact normalized-match short-circuit sits inside
the per-topic scan, after a successful provider call; when the provider
succeeds (with a nonempty vector) and the similarity computations on the
stored entries preceding the first exact match succeed, the function returns
(true, that topic) without consulting the entries after it. -/
theorem c2_amended_exact_match_in_scan (f : Vec → Vec → ℚ)
    (provider : String → Option Vec) (text t : String) (e emb : Vec)
    (pre rest : Store)
    (hlen : 10 ≤ text.length)
    (hprov : provider (normalize_text text) = some emb) (hemb : emb ≠ [])
    (hpre1 : ∀ p ∈ pre, normalize_text p.1 ≠ normalize_text text)
    (hpre2 : ∀ p ∈ pre, emb.length = p.2.length)
    (ht : normalize_text t = normalize_text text) :
    is_similar_to_existing f provider (pre ++ (t, e) :: rest) text =
      .ok ⟨true, some t, true, true⟩ :=
  is_similar_exact_match hlen hprov hemb hpre1 hpre2 ht

/-- Witness for the amended C2 at a concrete store and query. -/
theorem c2_amended_witness :
    is_similar_to_existing (fun _ _ => 0) (fun _ => some [1])
      ([] ++ ("Title: example   topic here", ([5] : Vec)) :: [])
      "Example Topic Here" =
      .ok ⟨true, some "Title: example   topic here", true, true⟩ :=
  c2_amended_exact_match_in_scan (fun _ _ => 0) (fun _ => some [1])
    "Example Topic Here" "Title: example   topic here" [5] [1] [] []
    (by decide) rfl (by decide)
    (fun p hp => absurd hp (List.not_mem_nil p))
    (fun p hp => absurd hp (List.not_mem_nil p))
    (by decide)

theorem run_flag_spec (f : Vec → Vec → ℚ) (provider : String → Option Vec)
    (store : Store) (text : String) (emb : Vec)
    (hlen : 10 ≤ text.length)
    (hprov : provider (normalize_text text) = some emb) (hemb : emb ≠ [])
    (hne : store ≠ [])
    (hnm : ∀ p ∈ store, normalize_text p.1 ≠ normalize_text text)
    (hdim : ∀ p ∈ store, emb.length = p.2.length) :
    ∃ r : SimCheck, is_similar_to_existing f provider store text = .ok r ∧
      (r.similar = true ↔ maxScore f emb store > simThreshold) ∧
      (maxScore f emb store = simThreshold → r.similar = false) := by
  refine ⟨_, is_similar_run hlen hprov hemb hne hnm hdim, ?_, ?_⟩
  · obtain ⟨⟩ | ⟨p, rest⟩ := store
    · exact absurd rfl hne
    · simp only [foldPair_fst_eq_max, decide_eq_true_eq]
      constructor
      · intro h
        rcases lt_max_iff.mp h with h0 | h0
        · exact absurd h0 (by norm_num [simThreshold])
        · exact h0
      · intro h
        exact lt_max_iff.mpr (Or.inr h)
  · intro heq
    obtain ⟨⟩ | ⟨p, rest⟩ := store
    · exact absurd rfl hne
    · simp only [foldPair_fst_eq_max, heq, decide_eq_false_iff_not]
      intro hcon
      rcases lt_max_iff.mp hcon with h0 | h0
      · exact absurd h0 (by norm_num [simThreshold])
      · exact absurd h0 (lt_irrefl _)

/-- Claim C3: with no exact normalized match, a successful provider call and
a non-empty store, the returned flag is true exactly when the maximum
cosine-similarity score strictly exceeds SIMILARITY_THRESHOLD = 0.92; a
maximum exactly equal to the threshold is not flagged.  (The similarity
computations must themselves succeed, i.e. the stored vectors have the query
vector's length.) -/
theorem c3_threshold_strict (f : Vec → Vec → ℚ) (provider : String → Option Vec)
    (store : Store) (text : String) (emb : Vec)
    (hlen : 10 ≤ text.length)
    (hprov : provider (normalize_text text) = some emb) (hemb : emb ≠ [])
    (hne : store ≠ [])
    (hnm : ∀ p ∈ store, normalize_text p.1 ≠ normalize_text text)
    (hdim : ∀ p ∈ store, emb.length = p.2.length) :
    ∃ r : SimCheck, is_similar_to_existing f provider store text = .ok r ∧
      (r.similar = true ↔ maxScore f emb store > simThreshold) ∧
      (maxScore f emb store = simThreshold → r.similar = false) :=
  run_flag_spec f provider store text emb hlen hprov hemb hne hnm hdim

/-- Witness for C3: one stored topic with score exactly 0.92 is not flagged. -/
theorem c3_threshold_strict_witness :
    ∃ r : SimCheck,
      is_similar_to_existing (fun _ _ => 92 / 100) (fun _ => some [1])
        [("some other stored topic", [1])] "Example Topic Here" = .ok r ∧
      (r.similar = true ↔
        maxScore (fun _ _ => 92 / 100) [1] [("some other stored topic", [1])] > simThreshold) ∧
      (maxScore (fun _ _ => 92 / 100) [1] [("some other stored topic", [1])] = simThreshold →
        r.similar = false) :=
  c3_threshold_strict (fun _ _ => 92 / 100) (fun _ => some [1])
    [("some other stored topic", [1])] "Example Topic Here" [1]
    (by decide) rfl (by decide) (by decide)
    (by intro p hp; rcases List.mem_singleton.mp hp with rfl; decide)
    (by intro p hp; rcases List.mem_singleton.mp hp with rfl; decide)

/-- Counterexample to claim C6: the loop's running maximum starts at 0 and
the best topic is only updated on a strict increase (lines 107 and 121-123
of src/embeddings.py), so a non-empty store all of whose scores are
non-positive — here one stored vector whose float cosine with the query is
exactly -1, as for the vectors [1.0] and [-1.0] — yields None as the matched
topic even though the store is not empty and the maximum is attained by its
only entry. -/
theorem c6_counterexample :
    is_similar_to_existing (fun _ _ => -1) (fun _ => some [1])
      [("clearly unrelated topic", [-1])] "Example Topic Here" =
      .ok ⟨false, none, true, true⟩ ∧
    ([("clearly unrelated topic", ([-1] : Vec))] : Store) ≠ [] := by
  constructor
  · rw [is_similar_run (by decide) rfl (by decide) (by decide)
      (by intro p hp; rcases List.mem_singleton.mp hp with rfl; decide)
      (by intro p hp; rcases List.mem_singleton.mp hp with rfl; decide)]
    have hfp : foldPair (fun _ _ => -1) [1]
        [("clearly unrelated topic", [-1])] (0, none) = (0, none) := by
      norm_num [foldPair]
    rw [hfp]
    norm_num [simThreshold, decide_eq_false_iff_not]
  · decide

/-- Claim C6 as amended: under the same scan hypotheses as C3, any returned
topic is a stored topic whose score attains the maximum similarity score;
the returned topic is None exactly when every score is non-positive (so in
particular when the store is empty, but also for a non-empty store with no
positive score); and the flag equals (maximum score > threshold). -/
theorem c6_amended_argmax (f : Vec → Vec → ℚ) (provider : String → Option Vec)
    (store : Store) (text : String) (emb : Vec)
    (hlen : 10 ≤ text.length)
    (hprov : provider (normalize_text text) = some emb) (hemb : emb ≠ [])
    (hne : store ≠ [])
    (hnm : ∀ p ∈ store, normalize_text p.1 ≠ normalize_text text)
    (hdim : ∀ p ∈ store, emb.length = p.2.length) :
    ∃ r : SimCheck, is_similar_to_existing f provider store text = .ok r ∧
      (r.similar = true ↔ maxScore f emb store > simThreshold) ∧
      (∀ t, r.topic = some t →
        ∃ p ∈ store, p.1 = t ∧ f emb p.2 = maxScore f emb store) ∧
      (r.topic = none ↔ ∀ p ∈ store, f emb p.2 ≤ 0) := by
  obtain ⟨r, hrun, hiff, _⟩ := run_flag_spec f provider store text emb
    hlen hprov hemb hne hnm hdim
  rw [is_similar_run hlen hprov hemb hne hnm hdim] at hrun
  have hr : r = ⟨decide ((foldPair f emb store (0, none)).1 > simThreshold),
      (foldPair f emb store (0, none)).2, true, true⟩ := by
    exact (Except.ok.injEq _ _).mp hrun.symm
  refine ⟨r, is_similar_run hlen hprov hemb hne hnm hdim ▸ by rw [hr], hiff, ?_, ?_⟩
  · intro t ht
    rcases @foldPair_snd_spec f emb store 0 none with ⟨h1, _, _⟩ | ⟨p, hp, h1, h2, h3⟩
    · rw [hr] at ht
      simp only [h1] at ht
      exact absurd ht (by simp)
    · rw [hr] at ht
      simp only [h1, Option.some.injEq] at ht
      refine ⟨p, hp, ht, ?_⟩
      obtain ⟨⟩ | ⟨p0, rest⟩ := store
      · exact absurd rfl hne
      · rw [h2, foldPair_fst_eq_max]
        rw [foldPair_fst_eq_max] at h3
        rcases lt_max_iff.mp h3 with h0 | h0
        · exact absurd h0 (lt_irrefl _)
        · exact max_eq_right (le_of_lt h0)
  · constructor
    · intro hnone p hp
      rcases @foldPair_snd_spec f emb store 0 none with ⟨_, h2, h3⟩ | ⟨x, hx, h1, h2, h3⟩
      · exact h3 p hp
      · rw [hr] at hnone
        simp only [h1] at hnone
        exact absurd hnone (by simp)
    · intro hall
      rcases @foldPair_snd_spec f emb store 0 none with ⟨h1, _, _⟩ | ⟨x, hx, h1, h2, h3⟩
      · rw [hr]
        simpa using h1
      · rw [← h2] at h3
        exact absurd h3 (not_lt.mpr (hall x hx))

/-- Witness for the amended C6: a positive below-threshold score makes the
single stored topic the returned match. -/
theorem c6_amended_argmax_witness :
    ∃ r : SimCheck,
      is_similar_to_existing (fun _ _ => 1 / 2) (fun _ => some [1])
        [("some other stored topic", [1])] "Example Topic Here" = .ok r ∧
      (r.similar = true ↔
        maxScore (fun _ _ => 1 / 2) [1] [("some other stored topic", [1])] > simThreshold) ∧
      (∀ t, r.topic = some t →
        ∃ p ∈ ([("some other stored topic", [1])] : Store), p.1 = t ∧
          (fun (_ : Vec) (_ : Vec) => (1 : ℚ) / 2) [1] p.2 =
            maxScore (fun _ _ => 1 / 2) [1] [("some other stored topic", [1])]) ∧
      (r.topic = none ↔
        ∀ p ∈ ([("some other stored topic", [1])] : Store),
          (fun (_ : Vec) (_ : Vec) => (1 : ℚ) / 2) [1] p.2 ≤ 0) :=
  c6_amended_argmax (fun _ _ => 1 / 2) (fun _ => some [1])
    [("some other stored topic", [1])] "Example Topic Here" [1]
    (by decide) rfl (by decide) (by decide)
    (by intro p hp; rcases List.mem_singleton.mp hp with rfl; decide)
    (by intro p hp; rcases List.mem_singleton.mp hp with rfl; decide)

theorem dotL_eq_sum :
    ∀ (a b : List ℚ), dotL a b =
      ∑ i ∈ Finset.range (min a.length b.length), a.getD i 0 * b.getD i 0 := by
  intro a
  induction a with
  | nil => intro b; simp [dotL]
  | cons x a2 ih =>
      intro b
      cases b with
      | nil => simp [dotL]
      | cons y b2 =>
          have hmin : min (x :: a2).length (y :: b2).length =
              min a2.length b2.length + 1 := by
            simp [Nat.succ_min_succ]
          rw [hmin, Finset.sum_range_succ']
          simp only [List.getD_cons_succ, List.getD_cons_zero]
          have : dotL (x :: a2) (y :: b2) = x * y + dotL a2 b2 := by
            simp [dotL]
          rw [this, ih b2]
          ring

/-- Claim C7 as amended: cosine_similarity performs the raw computation
dot(a,b)/(‖a‖·‖b‖) with no explicit checks.  (i) For equal-length vectors
the Cauchy-Schwarz bound dot(a,b)² ≤ ‖a‖²·‖b‖² holds, so the quotient lies
in [-1,1] whenever both magnitudes are nonzero; (ii) vectors of differing
length make np.dot raise ValueError — there is no DimensionMismatch
exception anywhere in the code; (iii) nothing catches that error during the
similarity scan, so a single mismatched stored embedding aborts the whole
is_similar_to_existing call instead of being skipped.  (A zero-magnitude
vector yields a 0/0 float division, i.e. NaN — neither an explicit failure
nor 0.) -/
theorem c7_amended_cosine_contract :
    (∀ a b : Vec, a.length = b.length →
        (dotL a b) ^ 2 ≤ normSq a * normSq b) ∧
    (∀ (f : Vec → Vec → ℚ) (a b : Vec), a.length ≠ b.length →
        cosine_similarity f a b = .error .valueError) ∧
    (∀ (f : Vec → Vec → ℚ) (provider : String → Option Vec)
        (text t : String) (e emb : Vec) (rest : Store),
        10 ≤ text.length →
        provider (normalize_text text) = some emb → emb ≠ [] →
        emb.length ≠ e.length →
        normalize_text t ≠ normalize_text text →
        is_similar_to_existing f provider ((t, e) :: rest) text =
          .error .valueError) := by
  refine ⟨?_, ?_, ?_⟩
  · intro a b h
    rw [dotL_eq_sum a b, normSq, normSq, dotL_eq_sum a a, dotL_eq_sum b b, h]
    simp only [min_self]
    have hcs := Finset.sum_mul_sq_le_sq_mul_sq (Finset.range b.length)
      (fun i => a.getD i 0) (fun i => b.getD i 0)
    calc (∑ i ∈ Finset.range b.length, a.getD i 0 * b.getD i 0) ^ 2
        ≤ (∑ i ∈ Finset.range b.length, a.getD i 0 ^ 2) *
            ∑ i ∈ Finset.range b.length, b.getD i 0 ^ 2 := hcs
      _ = (∑ i ∈ Finset.range b.length, a.getD i 0 * a.getD i 0) *
            ∑ i ∈ Finset.range b.length, b.getD i 0 * b.getD i 0 := by
          simp only [pow_two]
  · intro f a b h
    exact cosine_err_of_length h
  · intro f provider text t e emb rest hlen hprov hemb hdim hnm
    obtain ⟨⟩ | ⟨a, tl⟩ := emb
    · exact absurd rfl hemb
    · rw [is_similar_to_existing, if_neg (length_ge_not_short hlen), hprov]
      have hne : (t, e) :: rest ≠ ([] : Store) := by simp
      simp only [if_neg hne]
      rw [scanTopics, if_neg hnm, cosine_err_of_length hdim]

/-- Witness for the amended C7 at concrete vectors and a concrete store. -/
theorem c7_amended_cosine_contract_witness :
    ((dotL [1, 2] [3, 4]) ^ 2 ≤ normSq [1, 2] * normSq [3, 4]) ∧
    cosine_similarity (fun _ _ => 0) [1] [1, 2] = .error .valueError ∧
    is_similar_to_existing (fun _ _ => 0) (fun _ => some [1])
      [("a stored mismatched topic", [1, 2])] "Example Topic Here" =
      .error .valueError :=
  ⟨c7_amended_cosine_contract.1 [1, 2] [3, 4] (by decide),
   c7_amended_cosine_contract.2.1 (fun _ _ => 0) [1] [1, 2] (by decide),
   c7_amended_cosine_contract.2.2 (fun _ _ => 0) (fun _ => some [1])
     "Example Topic Here" "a stored mismatched topic" [1, 2] [1] []
     (by decide) rfl (by decide) (by decide) (by decide)⟩

/-- Counterexample to claim C7 as stated: a stored embedding of mismatched
length makes the whole scan abort with the (uncaught) ValueError instead of
that one comparison being skipped.  The store here holds a mismatched first
entry and a second entry that is an exact normalized match of the query;
skipping the bad comparison would have produced (true, second entry), but
the run returns no value at all. -/
theorem c7_counterexample :
    is_similar_to_existing (fun _ _ => 0) (fun _ => some [1])
      [("a stored mismatched topic", [1, 2]),
       ("Title: example   topic here", [1])] "Example Topic Here" =
      .error .valueError ∧
    normalize_text "Title: example   topic here" =
      normalize_text "Example Topic Here" := by
  constructor
  · exact c7_amended_cosine_contract.2.2 (fun _ _ => 0) (fun _ => some [1])
      "Example Topic Here" "a stored mismatched topic" [1, 2] [1]
      [("Title: example   topic here", [1])]
      (by decide) rfl (by decide) (by decide) (by decide)
  · decide

/-- Claim C8 as amended: load_embeddings returns an empty mapping for an
absent file and for any file whose read or JSON parse raises, and never
raises itself; but a successfully parsed file is returned as-is, whatever
JSON value it holds — a structurally malformed yet parseable file (e.g. a
JSON array) is NOT turned into an empty mapping. -/
theorem c8_amended_load_resilience :
    load_embeddings .absent = .obj [] ∧
    load_embeddings .invalid = .obj [] ∧
    ∀ v : JsonVal, load_embeddings (.content v) = v :=
  ⟨rfl, rfl, fun _ => rfl⟩

/-- Counterexample to claim C8 as stated: a file that parses as the JSON
array [1] is structurally malformed as an embeddings mapping, yet
load_embeddings returns that array unchanged, which is not an empty mapping
(indeed not a mapping at all). -/
theorem c8_counterexample :
    load_embeddings (.content (.arr [.num 1])) = .arr [.num 1] ∧
    load_embeddings (.content (.arr [.num 1])) ≠ .obj [] :=
  ⟨rfl, fun h => JsonVal.noConfusion h⟩

/-- Claim C10: a successful cleanup_embeddings(u) keeps exactly the stored
entries whose key is among user u's current post titles — entries keyed by
other users' topics are deleted too, because the persisted store is shared
while the title query is scoped to the calling user. -/
theorem c10_cleanup_not_user_scoped :
    ∀ (currentTitles : List String) (store : Store) (k : String) (v : Vec),
      ((k, v) ∈ cleanup_embeddings currentTitles store ↔
        (k, v) ∈ store ∧ k ∈ currentTitles) := by
  intro currentTitles store k v
  simp [cleanup_embeddings, List.mem_filter, List.contains_eq_any_beq,
    List.any_beq]

theorem cacheReach_normalized {c : TitleCache} (h : CacheReach c) :
    c.normalized = c.original.map normalize_title := by
  induction h with
  | rebuild titles => rfl
  | append c t _ ih => simp [append_title, ih]

/-- Claim C9: in every cache state the repository produces — a wholesale
rebuild from the post store followed by any number of single-title appends —
the two parallel lists have equal length and the entry at every index of the
normalized list is the normalization of the entry at the same index of the
original list; and appending a newly accepted title puts that title and its
normalized form at the last position of the respective lists. -/
theorem c9_title_cache_invariant (c : TitleCache) (h : CacheReach c) :
    (c.original.length = c.normalized.length ∧
      ∀ (i : ℕ) (h1 : i < c.original.length) (h2 : i < c.normalized.length),
        c.normalized.get ⟨i, h2⟩ = normalize_title (c.original.get ⟨i, h1⟩)) ∧
    ∀ t : String,
      (append_title c t).original.getLast? = some t ∧
      (append_title c t).normalized.getLast? = some (normalize_title t) ∧
      (append_title c t).original.length = (append_title c t).normalized.length := by
  have hn := cacheReach_normalized h
  refine ⟨⟨by rw [hn, List.length_map], ?_⟩, ?_⟩
  · intro i h1 h2
    simp only [List.get_eq_getElem]
    rw [List.getElem_of_eq hn h2, List.getElem_map]
  · intro t
    refine ⟨?_, ?_, ?_⟩
    · simp [append_title]
    · simp [append_title]
    · simp [append_title, hn]

/-- Witness for C9: the invariant instantiated at a one-title rebuilt cache. -/
theorem c9_title_cache_invariant_witness :
    (rebuild_cache ["# My First Post"]).original.length =
      (rebuild_cache ["# My First Post"]).normalized.length ∧
    (append_title (rebuild_cache ["# My First Post"]) "New Title").original.getLast? =
      some "New Title" :=
  ⟨(c9_title_cache_invariant (rebuild_cache ["# My First Post"])
      (CacheReach.rebuild ["# My First Post"])).1.1,
   ((c9_title_cache_invariant (rebuild_cache ["# My First Post"])
      (CacheReach.rebuild ["# My First Post"])).2 "New Title").1⟩

theorem upsert_eq_append {store : Store} {k : String} {v : Vec}
    (h : ∀ p ∈ store, p.1 ≠ k) : upsert store k v = store ++ [(k, v)] := by
  rw [upsert, if_neg]
  intro hc
  rw [List.any_eq_true] at hc
  obtain ⟨p, hp, hpk⟩ := hc
  exact h p hp (by simpa using hpk)

theorem guard_eval_err {f : Vec → Vec → ℚ} {provider : String → Option Vec}
    {db : List String} {store : Store} {title : String} {e : PyErr}
    (hex : ¬(is_exact_title_exists db title).1 = true)
    (hsim : is_similar_to_existing f provider store title = .error e) :
    is_similar_post_exists f provider db store title = .error e := by
  rw [is_similar_post_exists, if_neg hex, hsim]

theorem guard_eval_false {f : Vec → Vec → ℚ} {provider : String → Option Vec}
    {db : List String} {store : Store} {title : String} {r : SimCheck}
    (hex : ¬(is_exact_title_exists db title).1 = true)
    (hsim : is_similar_to_existing f provider store title = .ok r)
    (hr : r.similar = false) :
    is_similar_post_exists f provider db store title =
      .ok (false, (add_embedding provider store title).2) := by
  rw [is_similar_post_exists, if_neg hex, hsim]
  simp [hr]

theorem guard_eval_true {f : Vec → Vec → ℚ} {provider : String → Option Vec}
    {db : List String} {store : Store} {title : String} {r : SimCheck}
    (hex : ¬(is_exact_title_exists db title).1 = true)
    (hsim : is_similar_to_existing f provider store title = .ok r)
    (hr : r.similar = true) :
    is_similar_post_exists f provider db store title = .ok (true, store) := by
  rw [is_similar_post_exists, if_neg hex, hsim]
  simp [hr]

theorem is_similar_empty_store {f : Vec → Vec → ℚ}
    {provider : String → Option Vec} {title : String} {a : ℚ} {tl : List ℚ}
    (hlen : 10 ≤ title.length)
    (hq : provider (normalize_text title) = some (a :: tl)) :
    is_similar_to_existing f provider [] title = .ok ⟨false, none, true, true⟩ := by
  rw [is_similar_to_existing, if_neg (length_ge_not_short hlen), hq]
  rfl

theorem is_similar_scan_eq {f : Vec → Vec → ℚ}
    {provider : String → Option Vec} {title : String} {a : ℚ} {tl : List ℚ}
    {p0 : String × Vec} {rest : Store}
    (hlen : 10 ≤ title.length)
    (hq : provider (normalize_text title) = some (a :: tl)) :
    is_similar_to_existing f provider (p0 :: rest) title =
      match scanTopics f (a :: tl) (normalize_text title) (p0 :: rest) 0 none with
      | .error e => .error e
      | .ok (b, most) => .ok ⟨b, most, true, true⟩ := by
  rw [is_similar_to_existing, if_neg (length_ge_not_short hlen), hq]
  have hstne : p0 :: rest ≠ ([] : Store) := by simp
  simp only [if_neg hstne]

/-- Claim C1: when is_similar_post_exists(user, title) returns False for a
title of at least 10 characters — with every provider call succeeding (here:
returning a nonempty vector both for the normalized title, which the
semantic check embeds, and for the raw title, which the registration embeds)
— the call has persisted the unnormalized title's embedding by appending it
to the shared store, and running the same call again on the resulting store
(same user, i.e. same post titles and provider) returns True. -/
theorem c1_registration_side_effect (f : Vec → Vec → ℚ)
    (provider : String → Option Vec) (db : List String)
    (store store₁ : Store) (title : String) (emb w : Vec)
    (hlen : 10 ≤ title.length)
    (hq : provider (normalize_text title) = some emb) (hqne : emb ≠ [])
    (hw : provider title = some w) (hwne : w ≠ [])
    (hrun : is_similar_post_exists f provider db store title =
      .ok (false, store₁)) :
    store₁ = store ++ [(title, w)] ∧
    is_similar_post_exists f provider db store₁ title = .ok (true, store₁) := by
  obtain ⟨⟩ | ⟨a, tl⟩ := emb
  · exact absurd rfl hqne
  obtain ⟨⟩ | ⟨c0, wtl⟩ := w
  · exact absurd rfl hwne
  by_cases hex : (is_exact_title_exists db title).1
  · rw [is_similar_post_exists, if_pos hex] at hrun
    exact absurd hrun (by simp)
  · rcases store with _ | ⟨p0, rest⟩
    · have hadd : (add_embedding provider [] title).2 = [(title, c0 :: wtl)] := by
        rw [add_embedding, hw]
        simp [upsert]
      rw [guard_eval_false hex (is_similar_empty_store hlen hq) rfl] at hrun
      have hX : (add_embedding provider [] title).2 = store₁ :=
        congrArg Prod.snd ((Except.ok.injEq _ _).mp hrun)
      rw [hadd] at hX
      subst hX
      refine ⟨by simp, ?_⟩
      have hmatch : is_similar_to_existing f provider
          ([] ++ (title, c0 :: wtl) :: []) title =
          .ok ⟨true, some title, true, true⟩ :=
        is_similar_exact_match hlen hq (by simp)
          (fun p hp => absurd hp (List.not_mem_nil p))
          (fun p hp => absurd hp (List.not_mem_nil p)) rfl
      simp only [List.nil_append] at hmatch
      exact guard_eval_true hex hmatch rfl
    · cases hscan : scanTopics f (a :: tl) (normalize_text title)
          (p0 :: rest) 0 none with
      | error e =>
          have hsim : is_similar_to_existing f provider (p0 :: rest) title =
              .error e := by
            rw [is_similar_scan_eq hlen hq, hscan]
          rw [guard_eval_err hex hsim] at hrun
          exact absurd hrun (by simp)
      | ok bp =>
          obtain ⟨b, mo⟩ := bp
          have hsim : is_similar_to_existing f provider (p0 :: rest) title =
              .ok ⟨b, mo, true, true⟩ := by
            rw [is_similar_scan_eq hlen hq, hscan]
          cases b with
          | true =>
              rw [guard_eval_true hex hsim rfl] at hrun
              exact absurd hrun (by simp)
          | false =>
              have hinv := scanTopics_ok_false (p0 :: rest) 0 none mo hscan
              have hkey : ∀ p ∈ (p0 :: rest : Store), p.1 ≠ title := by
                intro p hp heq
                exact (hinv p hp).1 (by rw [heq])
              have hadd : (add_embedding provider (p0 :: rest) title).2 =
                  (p0 :: rest) ++ [(title, c0 :: wtl)] := by
                rw [add_embedding, hw]
                exact upsert_eq_append hkey
              rw [guard_eval_false hex hsim rfl] at hrun
              have hX : (add_embedding provider (p0 :: rest) title).2 = store₁ :=
                congrArg Prod.snd ((Except.ok.injEq _ _).mp hrun)
              rw [hadd] at hX
              subst hX
              refine ⟨rfl, ?_⟩
              have hmatch : is_similar_to_existing f provider
                  ((p0 :: rest) ++ (title, c0 :: wtl) :: []) title =
                  .ok ⟨true, some title, true, true⟩ :=
                is_similar_exact_match hlen hq (by simp)
                  (fun p hp => (hinv p hp).1)
                  (fun p hp => (hinv p hp).2) rfl
              exact guard_eval_true hex hmatch rfl

/-- Witness for C1: empty post store, empty embedding store, an
always-succeeding provider; the first call registers the title, the second
flags it. -/
theorem c1_registration_side_effect_witness :
    ([("abcdefghij", ([1] : Vec))] : Store) = [] ++ [("abcdefghij", [1])] ∧
    is_similar_post_exists (fun _ _ => 0) (fun _ => some [1]) []
      [("abcdefghij", [1])] "abcdefghij" = .ok (true, [("abcdefghij", [1])]) :=
  c1_registration_side_effect (fun _ _ => 0) (fun _ => some [1]) [] []
    [("abcdefghij", [1])] "abcdefghij" [1] [1]
    (by decide) rfl (by decide) rfl (by decide) (by rfl)

theorem char_toNat_inj {a b : Char} (h : a.toNat = b.toNat) : a = b := by
  have h2 := congrArg Char.ofNat h
  rwa [Char.ofNat_toNat, Char.ofNat_toNat] at h2

theorem toNat_charOfNat {n : ℕ} (h : n < 55296) : (Char.ofNat n).toNat = n := by
  have hv : n.isValidChar := Or.inl h
  rw [Char.ofNat, dif_pos hv]
  rfl

theorem toNat_pyToLower (c : Char) :
    (pyToLower c).toNat =
      if 65 ≤ c.toNat ∧ c.toNat ≤ 90 then c.toNat + 32 else c.toNat := by
  rw [pyToLower]
  by_cases h : 65 ≤ c.toNat ∧ c.toNat ≤ 90
  · rw [if_pos h, if_pos h, toNat_charOfNat (by omega)]
  · rw [if_neg h, if_neg h]

theorem pyToLower_pyToLower (c : Char) :
    pyToLower (pyToLower c) = pyToLower c := by
  apply char_toNat_inj
  rw [toNat_pyToLower, toNat_pyToLower]
  split_ifs <;> omega

theorem toNat_lt_of_pyIsSpace {c : Char} (h : pyIsSpace c = true) :
    c.toNat < 65 := by
  simp only [pyIsSpace, Bool.or_eq_true, beq_iff_eq] at h
  rcases h with ((((h | h) | h) | h) | h) | h <;> omega

theorem pyToLower_eq_self {c : Char} (h : ¬(65 ≤ c.toNat ∧ c.toNat ≤ 90)) :
    pyToLower c = c := by
  rw [pyToLower, if_neg h]

theorem pyIsSpace_pyToLower (c : Char) :
    pyIsSpace (pyToLower c) = pyIsSpace c := by
  by_cases h : 65 ≤ c.toNat ∧ c.toNat ≤ 90
  · have hc : pyIsSpace c = false := by
      cases hs : pyIsSpace c
      · rfl
      · have := toNat_lt_of_pyIsSpace hs
        omega
    have hl : pyIsSpace (pyToLower c) = false := by
      cases hs : pyIsSpace (pyToLower c)
      · rfl
      · have h2 := toNat_lt_of_pyIsSpace hs
        rw [toNat_pyToLower, if_pos h] at h2
        omega
    rw [hc, hl]
  · rw [pyToLower_eq_self h]

/-- No two adjacent whitespace characters. -/
def noPairSpace (a b : Char) : Prop :=
  ¬(pyIsSpace a = true ∧ pyIsSpace b = true)

theorem noPairSpace_symm {a b : Char} (h : noPairSpace a b) : noPairSpace b a :=
  fun hc => h ⟨hc.2, hc.1⟩

theorem collapse_head? :
    ∀ l : List Char, (collapseWs l).head? =
      l.head?.map (fun c => if pyIsSpace c then ' ' else c) := by
  intro l
  induction l with
  | nil => rfl
  | cons c t ih =>
      cases t with
      | nil =>
          by_cases h : pyIsSpace c = true
          · simp [collapseWs, h]
          · simp only [Bool.not_eq_true] at h
            simp [collapseWs, h]
      | cons c' cs =>
          by_cases h : pyIsSpace c = true
          · by_cases h' : pyIsSpace c' = true
            · simp only [collapseWs, if_pos h, if_pos h']
              rw [ih]
              simp [h, h']
            · simp only [Bool.not_eq_true] at h'
              simp [collapseWs, h, h']
          · simp only [Bool.not_eq_true] at h
            simp [collapseWs, h]

theorem wsOnly_collapse :
    ∀ l : List Char, ∀ c ∈ collapseWs l, pyIsSpace c = true → c = ' ' := by
  intro l
  induction l with
  | nil => intro c hc; exact absurd hc (by simp [collapseWs])
  | cons a t ih =>
      cases t with
      | nil =>
          intro c hc hsp
          by_cases h : pyIsSpace a = true
          · simp only [collapseWs, if_pos h, List.mem_singleton] at hc
            exact hc
          · simp only [collapseWs, if_neg h, List.mem_singleton] at hc
            subst hc
            exact absurd hsp h
      | cons a' t' =>
          intro c hc hsp
          by_cases h : pyIsSpace a = true
          · by_cases h' : pyIsSpace a' = true
            · rw [collapseWs, if_pos h, if_pos h'] at hc
              exact ih c hc hsp
            · rw [collapseWs, if_pos h, if_neg h'] at hc
              rcases List.mem_cons.mp hc with rfl | hc
              · rfl
              · exact ih c hc hsp
          · rw [collapseWs, if_neg h] at hc
            rcases List.mem_cons.mp hc with rfl | hc
            · exact absurd hsp h
            · exact ih c hc hsp

theorem chain'_collapse :
    ∀ l : List Char, List.Chain' noPairSpace (collapseWs l) := by
  intro l
  induction l with
  | nil => simp [collapseWs]
  | cons a t ih =>
      cases t with
      | nil =>
          by_cases h : pyIsSpace a = true
          · simp [collapseWs, h]
          · simp only [Bool.not_eq_true] at h
            simp [collapseWs, h]
      | cons a' t' =>
          by_cases h : pyIsSpace a = true
          · by_cases h' : pyIsSpace a' = true
            · rw [collapseWs, if_pos h, if_pos h']
              exact ih
            · rw [collapseWs, if_pos h, if_neg h']
              rw [List.chain'_cons']
              refine ⟨?_, ih⟩
              intro y hy
              rw [collapse_head?] at hy
              have hy2 : (if pyIsSpace a' = true then ' ' else a') = y := by
                simpa using hy
              rw [if_neg h'] at hy2
              subst hy2
              intro hcon
              exact h' hcon.2
          · rw [collapseWs, if_neg h]
            rw [List.chain'_cons']
            refine ⟨?_, ih⟩
            intro y hy
            intro hcon
            rw [hcon.1] at h
            exact h rfl

theorem collapse_eq_self :
    ∀ l : List Char, (∀ c ∈ l, pyIsSpace c = true → c = ' ') →
      List.Chain' noPairSpace l → collapseWs l = l := by
  intro l
  induction l with
  | nil => intro _ _; rfl
  | cons a t ih =>
      cases t with
      | nil =>
          intro hws _
          by_cases h : pyIsSpace a = true
          · rw [collapseWs, if_pos h, hws a (by simp) h]
          · rw [collapseWs, if_neg h]
      | cons a' t' =>
          intro hws hch
          have hpair : noPairSpace a a' := (List.chain'_cons.mp hch).1
          have hch' : List.Chain' noPairSpace (a' :: t') := (List.chain'_cons.mp hch).2
          have hws' : ∀ c ∈ a' :: t', pyIsSpace c = true → c = ' ' :=
            fun c hc => hws c (by simp [hc])
          by_cases h : pyIsSpace a = true
          · have h' : ¬ pyIsSpace a' = true := fun hc => hpair ⟨h, hc⟩
            rw [collapseWs, if_pos h, if_neg h', ih hws' hch',
              hws a (by simp) h]
          · rw [collapseWs, if_neg h, ih hws' hch']

theorem dropWhile_head?_false {p : Char → Bool} {l : List Char} {x : Char}
    (h : (l.dropWhile p).head? = some x) : p x = false := by
  have hh := List.head?_dropWhile_not p l
  rw [h] at hh
  exact hh

theorem getLast?_of_suffix {u w : List Char} (h : u <:+ w) (hne : u ≠ []) :
    u.getLast? = w.getLast? := by
  obtain ⟨t, rfl⟩ := h
  rw [List.getLast?_append]
  cases hu : u.getLast? with
  | none => exact absurd (List.getLast?_eq_none_iff.mp hu) hne
  | some d => rw [Option.or_some]

theorem chain'_pyStrip {l : List Char} (h : List.Chain' noPairSpace l) :
    List.Chain' noPairSpace (pyStrip l) := by
  have h1 : List.Chain' noPairSpace (l.dropWhile pyIsSpace) :=
    h.suffix (List.dropWhile_suffix pyIsSpace)
  have h2 : List.Chain' noPairSpace (l.dropWhile pyIsSpace).reverse := by
    rw [List.chain'_reverse]
    exact h1.imp fun a b hab => noPairSpace_symm hab
  have h3 : List.Chain' noPairSpace
      ((l.dropWhile pyIsSpace).reverse.dropWhile pyIsSpace) :=
    h2.suffix (List.dropWhile_suffix pyIsSpace)
  rw [pyStrip, List.chain'_reverse]
  exact h3.imp fun a b hab => noPairSpace_symm hab

theorem mem_pyStrip {l : List Char} {c : Char} (h : c ∈ pyStrip l) : c ∈ l := by
  rw [pyStrip, List.mem_reverse] at h
  exact List.dropWhile_subset pyIsSpace (List.mem_reverse.mp (List.dropWhile_subset pyIsSpace h))

theorem head?_pyStrip_false {l : List Char} {c : Char}
    (h : (pyStrip l).head? = some c) : pyIsSpace c = false := by
  rw [pyStrip, List.head?_reverse] at h
  have hne : (l.dropWhile pyIsSpace).reverse.dropWhile pyIsSpace ≠ [] := by
    intro hc
    rw [hc] at h
    exact absurd h (by simp)
  rw [getLast?_of_suffix (List.dropWhile_suffix pyIsSpace) hne,
    List.getLast?_reverse] at h
  exact dropWhile_head?_false h

theorem getLast?_pyStrip_false {l : List Char} {c : Char}
    (h : (pyStrip l).getLast? = some c) : pyIsSpace c = false := by
  rw [pyStrip, List.getLast?_reverse] at h
  exact dropWhile_head?_false h

theorem dropWhile_eq_self_of_head {l : List Char}
    (h : ∀ c, l.head? = some c → pyIsSpace c = false) :
    l.dropWhile pyIsSpace = l := by
  cases l with
  | nil => rfl
  | cons a t =>
      have ha := h a rfl
      rw [List.dropWhile_cons_of_neg (by simp [ha])]

theorem pyStrip_eq_self {l : List Char}
    (h1 : ∀ c, l.head? = some c → pyIsSpace c = false)
    (h2 : ∀ c, l.getLast? = some c → pyIsSpace c = false) :
    pyStrip l = l := by
  rw [pyStrip, dropWhile_eq_self_of_head h1, dropWhile_eq_self_of_head
    (fun c hc => h2 c (by rwa [List.head?_reverse] at hc)), List.reverse_reverse]

theorem pyLower_eq_self {l : List Char} (h : ∀ c ∈ l, pyToLower c = c) :
    pyLower l = l := by
  induction l with
  | nil => rfl
  | cons a t ih =>
      rw [pyLower, List.map_cons, h a (by simp)]
      have := ih fun c hc => h c (by simp [hc])
      rw [pyLower] at this
      rw [this]

/-- The composite whitespace-collapse, strip, lowercase stage of the
normalizer is idempotent: applying it to its own output changes nothing. -/
theorem normalize_core_fixed (z : List Char) :
    pyLower (pyStrip (collapseWs (pyLower (pyStrip (collapseWs z))))) =
      pyLower (pyStrip (collapseWs z)) := by
  set u := collapseWs z with hu
  set v := pyStrip u with hv
  set y := pyLower v with hy
  have hwsU : ∀ c ∈ u, pyIsSpace c = true → c = ' ' := wsOnly_collapse z
  have hchU : List.Chain' noPairSpace u := chain'_collapse z
  have hwsV : ∀ c ∈ v, pyIsSpace c = true → c = ' ' :=
    fun c hc => hwsU c (mem_pyStrip hc)
  have hchV : List.Chain' noPairSpace v := chain'_pyStrip hchU
  have hwsY : ∀ c ∈ y, pyIsSpace c = true → c = ' ' := by
    intro c hc hsp
    rw [hy, pyLower] at hc
    obtain ⟨c0, hc0, rfl⟩ := List.mem_map.mp hc
    rw [pyIsSpace_pyToLower] at hsp
    rw [hwsV c0 hc0 hsp]
    rfl
  have hchY : List.Chain' noPairSpace y := by
    rw [hy, pyLower, List.chain'_map]
    exact hchV.imp fun a b hab => by
      intro hcon
      rw [pyIsSpace_pyToLower, pyIsSpace_pyToLower] at hcon
      exact hab hcon
  have hheadY : ∀ c, y.head? = some c → pyIsSpace c = false := by
    intro c hc
    rw [hy, pyLower, List.head?_map] at hc
    cases hv0 : v.head? with
    | none => rw [hv0] at hc; exact absurd hc (by simp)
    | some c0 =>
        rw [hv0] at hc
        have hc0 : pyToLower c0 = c := by simpa using hc
        rw [← hc0, pyIsSpace_pyToLower]
        exact head?_pyStrip_false (hv ▸ hv0)
  have hlastY : ∀ c, y.getLast? = some c → pyIsSpace c = false := by
    intro c hc
    rw [hy, pyLower, List.getLast?_map] at hc
    cases hv0 : v.getLast? with
    | none => rw [hv0] at hc; exact absurd hc (by simp)
    | some c0 =>
        rw [hv0] at hc
        have hc0 : pyToLower c0 = c := by simpa using hc
        rw [← hc0, pyIsSpace_pyToLower]
        exact getLast?_pyStrip_false (hv ▸ hv0)
  have hfixY : ∀ c ∈ y, pyToLower c = c := by
    intro c hc
    rw [hy, pyLower] at hc
    obtain ⟨c0, _, rfl⟩ := List.mem_map.mp hc
    exact pyToLower_pyToLower c0
  rw [collapse_eq_self y hwsY hchY, pyStrip_eq_self hheadY hlastY,
    pyLower_eq_self hfixY]

/-- Counterexample to claim C5: normalization is not idempotent.  The
prefix-stripping substitutions remove only one leading marker per pass, so a
string whose normalized form still begins with a marker normalizes further
on a second pass: normalize("title: title: abcdef") is "title: abcdef", and
normalizing that again gives "abcdef". -/
theorem c5_counterexample :
    normalize_text (normalize_text "title: title: abcdef") ≠
      normalize_text "title: title: abcdef" := by
  decide

/-- Claim C5 as amended: normalization is idempotent on exactly the strings
whose normalized form no longer begins with a markdown heading marker or a
case-insensitive title: marker — i.e. whenever the two prefix-stripping
stages leave the normalized form unchanged, a second normalization is the
identity (the whitespace-collapse, trim and lowercase stages are always
idempotent). -/
theorem c5_amended_idempotent (x : String)
    (h1 : stripHeading (normalize_text x).data = (normalize_text x).data)
    (h2 : stripTitleMarker (normalize_text x).data = (normalize_text x).data) :
    normalize_text (normalize_text x) = normalize_text x := by
  show (⟨pyLower (pyStrip (collapseWs (stripTitleMarker (stripHeading
    (normalize_text x).data))))⟩ : String) = normalize_text x
  rw [h1, h2]
  exact congrArg String.mk
    (normalize_core_fixed (stripTitleMarker (stripHeading x.data)))

/-- Witness for the amended C5: a title with both markers and messy
whitespace whose normalized form is marker-free. -/
theorem c5_amended_idempotent_witness :
    normalize_text (normalize_text "# Title:  Docker  Guide ") =
      normalize_text "# Title:  Docker  Guide " :=
  c5_amended_idempotent "# Title:  Docker  Guide " (by decide) (by decide)
